import Mathlib

/-!
Verification of the download-orchestration and cancellation/cleanup core of
`youtube_to_mp3_proh.py` (classes `DownloadWorker` and `AppWindow`).

The embedding is shallow and executable:
* file names and text-field contents are modelled as `List Char` (obtained from
  string literals via `String.toList`) so every operation reduces by `decide`;
* the filesystem directory seen by `DownloadWorker.cleanup_partial_files` is a
  list of entries carrying a name, a size, and a flag `opFails` recording
  whether the first filesystem operation touching that entry raises
  (permission denied, file vanished, ...);
* the worker's `run` method is modelled as a trace of emitted events over an
  abstract engine behaviour (the flag values the progress hook observes, and
  whether `ydl.download` returns or raises);
* the `AppWindow` controller is a state machine whose events are button
  clicks (only effective while the corresponding button is enabled, as in Qt),
  text edits, worker-thread exits and worker signals.
-/

-- ==========================================================================
-- Cleanup routine: DownloadWorker.cleanup_partial_files
-- ==========================================================================

/-- The temporary / intermediate extensions deleted by the first branch of
`cleanup_partial_files` (yt-dlp temp files and video/audio streams). -/
def tempExts : List (List Char) :=
  [".part".toList, ".ytdl".toList, ".temp".toList, ".tmp".toList,
   ".webm".toList, ".mp4".toList, ".m4a".toList, ".wav".toList]

/-- Thumbnail image extensions deleted by the second branch. -/
def imageExts : List (List Char) :=
  [".webp".toList, ".jpg".toList, ".jpeg".toList, ".png".toList]

/-- `str.endswith(suffix)` on character lists. -/
def endsWithSuffix (s pat : List Char) : Bool :=
  List.isSuffixOf pat s

def hasTempExt (n : List Char) : Bool :=
  tempExts.any (fun e => endsWithSuffix n e)

def hasImageExt (n : List Char) : Bool :=
  imageExts.any (fun e => endsWithSuffix n e)

def isMp3Name (n : List Char) : Bool :=
  endsWithSuffix n ".mp3".toList

/-- `200 * 1024` bytes, the minimum size of a valid finished mp3. -/
def minMp3Size : Nat := 200 * 1024

/-- A directory entry as seen by `os.listdir`: its name, its size, and
whether the first filesystem operation touching it (remove / getsize)
raises an `OSError`. -/
structure Entry where
  name : List Char
  size : Nat
  opFails : Bool
deriving DecidableEq

/-- Does `cleanup_partial_files` delete this entry (in the absence of
filesystem errors)?  Mirrors the if/elif chain of the source. -/
def shouldDelete (f : Entry) : Bool :=
  if hasTempExt f.name then true
  else if hasImageExt f.name then true
  else if isMp3Name f.name then decide (f.size < minMp3Size)
  else false

/-- Does processing this entry perform a fallible filesystem call?
`os.remove` for temp/image matches, `os.path.getsize` (and possibly
`os.remove`) for every `.mp3`-named entry; other entries are skipped with
no filesystem call. -/
def touchesFs (f : Entry) : Bool :=
  hasTempExt f.name || hasImageExt f.name || isMp3Name f.name

/-- Embedding of `DownloadWorker.cleanup_partial_files`.  The whole
`for f in os.listdir(folder)` loop sits inside a single `try ... except
Exception: pass`, so the first raising filesystem call aborts the scan:
the offending entry and every later entry survive, and nothing is raised
to the caller (the function always returns the resulting directory). -/
def cleanupPartialArtifacts : List Entry → List Entry
  | [] => []
  | f :: rest =>
    if touchesFs f && f.opFails then f :: rest
    else if shouldDelete f then cleanupPartialArtifacts rest
    else f :: cleanupPartialArtifacts rest

-- ==========================================================================
-- Worker run / stop: DownloadWorker.run, DownloadWorker.stop
-- ==========================================================================

/-- What `ydl.download([...])` does when no progress hook aborts it:
it either returns normally or raises with some message. -/
inductive EngineResult
  | success
  | raises (msg : String)
deriving DecidableEq

/-- Events observable from `DownloadWorker.run`: status-text emissions, the
three outcome emissions (`finished.emit("Done")`, `finished.emit("Cancelled")`,
`error.emit(msg)`), and the invocation of `cleanup_partial_files`. -/
inductive WEvent
  | statusEvt (s : String)
  | outcomeDone
  | outcomeCancelled
  | outcomeError (msg : String)
  | cleanupEvt
deriving DecidableEq

def isOutcomeEvt : WEvent → Bool
  | WEvent.outcomeDone => true
  | WEvent.outcomeCancelled => true
  | WEvent.outcomeError _ => true
  | _ => false

def isCleanupEvt : WEvent → Bool
  | WEvent.cleanupEvt => true
  | _ => false

/-- The outcome notifications contained in a run trace. -/
def outcomesOf (t : List WEvent) : List WEvent :=
  t.filter isOutcomeEvt

/-- `b₁ ≤ b₂ ≤ ...` as a Bool: the `_stop` flag is set at most once and
never cleared, so the sequence of values it takes at successive observation
points is monotone (false then true). -/
def monoSeqB : List Bool → Bool
  | [] => true
  | [_] => true
  | a :: b :: rest => (!a || b) && monoSeqB (b :: rest)

/-- The `_stop` flag values observed by `run` form a monotone sequence:
`s0` at the pre-download check, then one value per progress-hook call,
then `sC` at the post-download / except-branch check. -/
def monoFlags (s0 : Bool) (hs : List Bool) (sC : Bool) : Prop :=
  monoSeqB (s0 :: (hs ++ [sC])) = true

instance (s0 : Bool) (hs : List Bool) (sC : Bool) :
    Decidable (monoFlags s0 hs sC) := by
  unfold monoFlags; infer_instance

/-- Embedding of `DownloadWorker.run` as the trace of events it emits, given
the flag value `s0` at the `if self._stop` check before `ydl.download`, the
flag values `hookFlags` observed by the progress hook at each callback (the
hook raises at the first `true`, aborting the download), the engine's own
behaviour `eng` when no hook aborts, and the flag value `sC` at the
post-download check (`if not self._stop` / `if self._stop` in `except`).
The `finally` block always appends the cleanup invocation, after any emit. -/
def runWorker (s0 : Bool) (hookFlags : List Bool) (eng : EngineResult)
    (sC : Bool) : List WEvent :=
  WEvent.statusEvt "Starting download..." ::
    (if s0 then
      [WEvent.outcomeCancelled, WEvent.cleanupEvt]
    else if hookFlags.any (fun b => b) then
      -- the hook raised `Exception("Download cancelled by user.")`;
      -- the except branch re-reads the flag
      [if sC then WEvent.outcomeCancelled
       else WEvent.outcomeError "Download cancelled by user.",
       WEvent.cleanupEvt]
    else
      match eng with
      | EngineResult.success =>
        if sC then [WEvent.cleanupEvt]
        else [WEvent.outcomeDone, WEvent.cleanupEvt]
      | EngineResult.raises m =>
        [if sC then WEvent.outcomeCancelled else WEvent.outcomeError m,
         WEvent.cleanupEvt])

/-- Is every outcome notification in the trace preceded by a cleanup
invocation?  (`true` iff no outcome event occurs strictly before the first
cleanup event.) -/
def cleanupBeforeOutcome : List WEvent → Bool
  | [] => true
  | WEvent.cleanupEvt :: _ => true
  | e :: rest => !isOutcomeEvt e && cleanupBeforeOutcome rest

/-- State owned by a `DownloadWorker` that `stop()` touches: the `_stop`
flag and the contents of its output directory. -/
structure WorkerState where
  stopFlag : Bool
  outDir : List Entry
deriving DecidableEq

/-- Embedding of `DownloadWorker.stop`: sets `_stop = True` (never clears
it), performs the best-effort `urlopen` interruption (no state effect, all
exceptions swallowed), and runs `cleanup_partial_files` on the output
directory.  It emits no signal. -/
def stopWorker (w : WorkerState) : WorkerState :=
  { stopFlag := true, outDir := cleanupPartialArtifacts w.outDir }

-- ==========================================================================
-- Progress hook percentage: DownloadWorker._make_opts.hook
-- ==========================================================================

/-- The percentage computed by the progress hook for a `"downloading"`
callback: `pct = (downloaded / total * 100) if total else 0.0`, then
`pct_val = max(0.0, min(100.0, float(pct)))`.  Real arithmetic is modelled
with rationals. -/
def hookPct (downloaded total : ℚ) : ℚ :=
  let pct : ℚ := if total = 0 then 0 else downloaded / total * 100
  max 0 (min 100 pct)

/-- The specification's `clamp(x, lo, hi)`, written from the spec's words
for comparison with `hookPct`. -/
def clampSpec (lo hi x : ℚ) : ℚ :=
  max lo (min hi x)

-- ==========================================================================
-- Controller: AppWindow.start_download / cancel_download and signal handlers
-- ==========================================================================

/-- `text.strip()` on character lists. -/
def stripChars (l : List Char) : List Char :=
  ((l.dropWhile Char.isWhitespace).reverse.dropWhile Char.isWhitespace).reverse

/-- Controller-visible state of `AppWindow`: the two buttons' enabled flags,
the status label, the progress bar value, the input line's text, and the
number of spawned worker threads that have not yet terminated. -/
structure CtrlState where
  btnDownloadEnabled : Bool
  btnCancelEnabled : Bool
  lblStatus : String
  progressVal : Nat
  inputText : List Char
  activeWorkers : Nat
deriving DecidableEq

/-- Externally visible actions performed by `start_download` besides its
state update, in program order: modal dialogs, the best-effort
`safe_mkdir(self.output_dir)` call, and spawning a `DownloadWorker`. -/
inductive StartAction
  | showDialog (title : String)
  | mkdirTarget
  | spawnWorker (url : List Char)
deriving DecidableEq

/-- Embedding of `AppWindow.start_download`: gates in source order —
`check_ffmpeg()`, then `check_internet()`, then the stripped URL being
non-empty — each failing gate returning before `safe_mkdir` and before any
worker is constructed; when all pass, `safe_mkdir` runs and a worker is
spawned with the stripped URL. -/
def start_download (s : CtrlState) (ffmpegOk internetOk : Bool) :
    CtrlState × List StartAction :=
  if ffmpegOk = false then
    (s, [StartAction.showDialog "FFmpeg Missing"])
  else if internetOk = false then
    ({ s with lblStatus := "Offline" }, [StartAction.showDialog "No Internet"])
  else if stripChars s.inputText = [] then
    ({ s with lblStatus := "Please paste a YouTube link." }, [])
  else
    ({ s with btnDownloadEnabled := false, btnCancelEnabled := true,
              lblStatus := "Queued", progressVal := 0,
              activeWorkers := s.activeWorkers + 1 },
     [StartAction.mkdirTarget, StartAction.spawnWorker (stripChars s.inputText)])

/-- Embedding of `AppWindow.cancel_download`.  `workerRunning` is the value
of `self.worker and self.worker.isRunning()`; `exitsWithinWait` records
whether the worker thread terminated within the bounded `self.worker.wait(500)`.
Whether or not a worker is running, the method then unconditionally sets the
status label to "Cancelled", resets the progress bar, clears the input line,
re-enables the download button and disables the cancel button. -/
def cancel_download (s : CtrlState) (workerRunning exitsWithinWait : Bool) :
    CtrlState :=
  let s1 := if workerRunning && exitsWithinWait then
              { s with activeWorkers := s.activeWorkers - 1 }
            else s
  { s1 with lblStatus := "Cancelled", progressVal := 0, inputText := [],
            btnDownloadEnabled := true, btnCancelEnabled := false }

/-- Events driving the `AppWindow` state machine: button clicks (with the
environment's answers to the preflight checks, respectively the state of the
running worker), edits of the input line, a worker thread terminating, and
the worker's terminal signals being delivered to `_on_finished` / `_on_error`. -/
inductive CtrlEvent
  | clickDownload (ffmpegOk internetOk : Bool)
  | clickCancel (workerRunning exitsWithinWait : Bool)
  | setInput (text : List Char)
  | workerExit
  | onFinishedSig (msg : String)
  | onErrorSig (msg : String)
deriving DecidableEq

/-- One step of the controller.  A Qt button emits `clicked` only while
enabled, so the click events are guarded by the button-enabled flags; the
other branches embed `_on_finished` and `_on_error`. -/
def ctrlStep (s : CtrlState) (e : CtrlEvent) : CtrlState :=
  match e with
  | CtrlEvent.clickDownload f i =>
    if s.btnDownloadEnabled then (start_download s f i).1 else s
  | CtrlEvent.clickCancel r w =>
    if s.btnCancelEnabled then cancel_download s r w else s
  | CtrlEvent.setInput t => { s with inputText := t }
  | CtrlEvent.workerExit => { s with activeWorkers := s.activeWorkers - 1 }
  | CtrlEvent.onFinishedSig m =>
    { s with progressVal := 100, lblStatus := m,
             btnDownloadEnabled := true, btnCancelEnabled := false }
  | CtrlEvent.onErrorSig _ =>
    { s with lblStatus := "Error",
             btnDownloadEnabled := true, btnCancelEnabled := false }

/-- The state of `AppWindow` right after `__init__` and `_build_ui`. -/
def initState : CtrlState :=
  { btnDownloadEnabled := true, btnCancelEnabled := false,
    lblStatus := "Ready", progressVal := 0, inputText := [],
    activeWorkers := 0 }

def runEvents (es : List CtrlEvent) : CtrlState :=
  es.foldl ctrlStep initState

/-- Events under which single-flight does hold: starts, edits, worker
exits, and cancels that observe the running worker and see it terminate
within the bounded wait.  Terminal-signal deliveries are excluded because
they re-enable the download button while the emitting worker thread may
still be running its cleanup tail. -/
def benignEvent : CtrlEvent → Bool
  | CtrlEvent.clickCancel r w => r && w
  | CtrlEvent.onFinishedSig _ => false
  | CtrlEvent.onErrorSig _ => false
  | _ => true

/-- Invariant establishing single-flight on benign traces. -/
def singleFlightInv (s : CtrlState) : Prop :=
  s.activeWorkers ≤ 1 ∧ (s.btnDownloadEnabled = true → s.activeWorkers = 0)

-- ==========================================================================
-- Theorems
-- ==========================================================================

theorem cleanup_cons (f : Entry) (rest : List Entry) :
    cleanupPartialArtifacts (f :: rest) =
      if touchesFs f && f.opFails then f :: rest
      else if shouldDelete f then cleanupPartialArtifacts rest
      else f :: cleanupPartialArtifacts rest := rfl

theorem cleanup_sublist : ∀ dir : List Entry,
    List.Sublist (cleanupPartialArtifacts dir) dir
  | [] => List.Sublist.refl _
  | f :: rest => by
    rw [cleanup_cons]
    by_cases h1 : (touchesFs f && f.opFails) = true
    · rw [if_pos h1]
    · rw [if_neg h1]
      by_cases h2 : shouldDelete f = true
      · rw [if_pos h2]
        exact (cleanup_sublist rest).cons f
      · rw [if_neg h2]
        exact (cleanup_sublist rest).cons₂ f

theorem cleanup_keeps : ∀ (dir : List Entry) (f : Entry), f ∈ dir →
    shouldDelete f = false → f ∈ cleanupPartialArtifacts dir
  | [], f => by intro h; simp at h
  | g :: rest, f => by
    intro hf hdel
    rw [cleanup_cons]
    by_cases h1 : (touchesFs g && g.opFails) = true
    · rw [if_pos h1]; exact hf
    · rw [if_neg h1]
      by_cases h2 : shouldDelete g = true
      · rw [if_pos h2]
        rcases List.mem_cons.mp hf with rfl | hmem
        · simp [hdel] at h2
        · exact cleanup_keeps rest f hmem hdel
      · rw [if_neg h2]
        rcases List.mem_cons.mp hf with rfl | hmem
        · exact List.mem_cons_self _ _
        · exact List.mem_cons_of_mem _ (cleanup_keeps rest f hmem hdel)

theorem cleanup_nofail_filter : ∀ dir : List Entry,
    (∀ f ∈ dir, f.opFails = false) →
    cleanupPartialArtifacts dir = dir.filter (fun f => !shouldDelete f)
  | [] => by intro; rfl
  | g :: rest => by
    intro h
    have hg : g.opFails = false := h g (List.mem_cons_self _ _)
    have hrest := cleanup_nofail_filter rest
      (fun f hf => h f (List.mem_cons_of_mem _ hf))
    rw [cleanup_cons, if_neg (by simp [hg]), List.filter_cons]
    by_cases h2 : shouldDelete g = true
    · rw [if_pos h2, hrest]
      simp [h2]
    · rw [if_neg h2, hrest]
      have h2' : shouldDelete g = false := Bool.eq_false_iff.mpr h2
      simp [h2']

/-- C6: `cleanup_partial_files` only ever removes entries from the listed
directory (result is a sublist), never removes an entry that is not a
recognized temporary/intermediate file, image file, or `.mp3` under
200 KiB — even when filesystem operations fail mid-scan — and, when no
filesystem operation fails, removes exactly the recognized entries.  The
function is total (the blanket `except` swallows every error), so it never
raises to its caller. -/
theorem cleanup_deletes_exactly_recognized (dir : List Entry) :
    List.Sublist (cleanupPartialArtifacts dir) dir ∧
    (∀ f ∈ dir, shouldDelete f = false → f ∈ cleanupPartialArtifacts dir) ∧
    ((∀ f ∈ dir, f.opFails = false) →
      cleanupPartialArtifacts dir = dir.filter (fun f => !shouldDelete f)) :=
  ⟨cleanup_sublist dir, fun f hf hdel => cleanup_keeps dir f hf hdel,
    cleanup_nofail_filter dir⟩

/-- Witness for C6 on a concrete error-free directory: the valid mp3 and
the unrelated text file survive, everything else is recognized. -/
theorem cleanup_deletes_exactly_recognized_witness :
    cleanupPartialArtifacts
      [⟨"tune.mp3".toList, 250 * 1024, false⟩, ⟨"cover.jpg".toList, 900, false⟩,
       ⟨"draft.txt".toList, 7, false⟩, ⟨"clip.webm".toList, 5000, false⟩] =
    List.filter (fun f => !shouldDelete f)
      [⟨"tune.mp3".toList, 250 * 1024, false⟩, ⟨"cover.jpg".toList, 900, false⟩,
       ⟨"draft.txt".toList, 7, false⟩, ⟨"clip.webm".toList, 5000, false⟩] :=
  (cleanup_deletes_exactly_recognized _).2.2 (by decide)

theorem cleanup_idem_aux : ∀ dir : List Entry,
    cleanupPartialArtifacts (cleanupPartialArtifacts dir) =
      cleanupPartialArtifacts dir
  | [] => rfl
  | f :: rest => by
    by_cases h1 : (touchesFs f && f.opFails) = true
    · have e : cleanupPartialArtifacts (f :: rest) = f :: rest := by
        rw [cleanup_cons, if_pos h1]
      rw [e]; exact e
    · by_cases h2 : shouldDelete f = true
      · have e : cleanupPartialArtifacts (f :: rest) =
            cleanupPartialArtifacts rest := by
          rw [cleanup_cons, if_neg h1, if_pos h2]
        rw [e]; exact cleanup_idem_aux rest
      · have e : cleanupPartialArtifacts (f :: rest) =
            f :: cleanupPartialArtifacts rest := by
          rw [cleanup_cons, if_neg h1, if_neg h2]
        rw [e, cleanup_cons, if_neg h1, if_neg h2, cleanup_idem_aux rest]

/-- C7: cleanup is idempotent — running `cleanup_partial_files` twice on any
directory state (including states where some filesystem operations fail)
yields the same directory as running it once; the second run deletes nothing
further and, being total, raises nothing. -/
theorem cleanup_idempotent (dir : List Entry) :
    cleanupPartialArtifacts (cleanupPartialArtifacts dir) =
      cleanupPartialArtifacts dir :=
  cleanup_idem_aux dir

/-- C8: `stop()` is idempotent — calling it twice leaves the worker in the
same state as calling it once; the `_stop` flag is true after any call and
is never reset (monotone false→true), and the redundant second cleanup pass
removes nothing (an already-deleted file is no longer listed, so deleting it
again is a no-op).  `stop()` emits no outcome signal, so no duplicate
notifications arise. -/
theorem stop_idempotent_flag_monotone (w : WorkerState) :
    stopWorker (stopWorker w) = stopWorker w ∧
    (stopWorker w).stopFlag = true := by
  refine ⟨?_, rfl⟩
  show WorkerState.mk true
      (cleanupPartialArtifacts (cleanupPartialArtifacts w.outDir)) =
    WorkerState.mk true (cleanupPartialArtifacts w.outDir)
  rw [cleanup_idem_aux]

/-- C10: the entire scan of `cleanup_partial_files` sits inside one
`try/except`, so the first failing filesystem operation aborts the scan:
given a prefix whose entries all succeed, a first failing entry, and an
arbitrary remainder, the result keeps the failing entry and the whole
remainder untouched — matching partial artifacts after the failure point
survive the run — while nothing is raised (the function returns normally). -/
theorem cleanup_first_error_aborts_scan :
    ∀ (pre : List Entry) (f : Entry) (post : List Entry),
      (∀ g ∈ pre, (touchesFs g && g.opFails) = false) →
      (touchesFs f && f.opFails) = true →
      cleanupPartialArtifacts (pre ++ f :: post) =
        pre.filter (fun g => !shouldDelete g) ++ f :: post
  | [], f, post => by
    intro _ hf
    rw [List.nil_append, cleanup_cons, if_pos hf, List.filter_nil,
      List.nil_append]
  | g :: pre, f, post => by
    intro hpre hf
    have hg := hpre g (List.mem_cons_self _ _)
    have hrec := cleanup_first_error_aborts_scan pre f post
      (fun x hx => hpre x (List.mem_cons_of_mem _ hx)) hf
    rw [List.cons_append, cleanup_cons, if_neg (by simp [hg]),
      List.filter_cons]
    by_cases h2 : shouldDelete g = true
    · rw [if_pos h2, hrec]
      simp [h2]
    · rw [if_neg h2, hrec]
      have h2' : shouldDelete g = false := Bool.eq_false_iff.mpr h2
      simp [h2']

/-- Witness for C10: the image file's removal fails, so the later `.part`
file — which a clean run would delete — survives. -/
theorem cleanup_first_error_aborts_scan_witness :
    cleanupPartialArtifacts
      [⟨"a.tmp".toList, 1, false⟩, ⟨"b.jpg".toList, 2, true⟩,
       ⟨"c.part".toList, 3, false⟩] =
    [⟨"b.jpg".toList, 2, true⟩, ⟨"c.part".toList, 3, false⟩] := by
  have h := cleanup_first_error_aborts_scan [⟨"a.tmp".toList, 1, false⟩]
    ⟨"b.jpg".toList, 2, true⟩ [⟨"c.part".toList, 3, false⟩]
    (by decide) (by decide)
  exact h.trans (by decide)

theorem monoSeqB_head_true : ∀ (t : List Bool) (c : Bool),
    monoSeqB (true :: (t ++ [c])) = true → c = true
  | [], c => by
    intro h
    simpa [monoSeqB] using h
  | x :: t, c => by
    intro h
    rw [List.cons_append] at h
    simp only [monoSeqB, Bool.and_eq_true] at h
    obtain ⟨hx, hrest⟩ := h
    simp at hx
    subst hx
    exact monoSeqB_head_true t c hrest

theorem monoFlags_any_imp : ∀ (s0 : Bool) (hs : List Bool) (sC : Bool),
    monoFlags s0 hs sC → hs.any (fun b => b) = true → sC = true
  | _, [], _ => by
    intro _ ha; simp at ha
  | s0, h :: t, sC => by
    intro hm ha
    unfold monoFlags at hm
    rw [List.cons_append] at hm
    simp only [monoSeqB, Bool.and_eq_true] at hm
    obtain ⟨_, hrest⟩ := hm
    simp only [List.any_cons, Bool.or_eq_true] at ha
    rcases ha with hh | ht
    · subst hh
      exact monoSeqB_head_true t sC hrest
    · exact monoFlags_any_imp h t sC hrest ht

/-- C1 counterexample: the cancellation flag is set after the last progress
callback (the hook observed `false`), the engine then finishes its transfer
naturally, and the post-download check sees the flag set.  The flag history
is monotone, the flag was true before the run's end, yet the run emits no
outcome notification at all — neither `Cancelled` nor anything else — which
refutes "exactly one outcome notification is emitted" with outcome
`Cancelled` for this run. -/
theorem run_worker_silent_race_cex :
    monoFlags false [false] true ∧
    outcomesOf (runWorker false [false] EngineResult.success true) = [] := by
  decide

/-- C1 amended: per run at most one outcome notification is emitted;
`Done` (Completed) is emitted only when the flag was never observed set at
any checkpoint, so a set flag never yields `Completed`; whenever the flag
is observed set at the pre-download check, at a hook callback, or at the
post-download check after an engine exception, the single outcome is
`Cancelled`; but in exactly one case — flag still clear at every hook
callback, engine finishing naturally, flag set by the final check — no
outcome notification is emitted at all. -/
theorem run_worker_outcomes_amended (s0 : Bool) (hs : List Bool)
    (eng : EngineResult) (sC : Bool) (h : monoFlags s0 hs sC) :
    (outcomesOf (runWorker s0 hs eng sC)).length ≤ 1 ∧
    (WEvent.outcomeDone ∈ outcomesOf (runWorker s0 hs eng sC) →
      s0 = false ∧ hs.any (fun b => b) = false ∧ sC = false) ∧
    ((s0 = true ∨ hs.any (fun b => b) = true ∨
        (sC = true ∧ eng ≠ EngineResult.success)) →
      outcomesOf (runWorker s0 hs eng sC) = [WEvent.outcomeCancelled]) ∧
    (outcomesOf (runWorker s0 hs eng sC) = [] ↔
      (s0 = false ∧ hs.any (fun b => b) = false ∧ sC = true ∧
        eng = EngineResult.success)) := by
  by_cases ha : hs.any (fun b => b) = true
  · cases s0
    · have hsC := monoFlags_any_imp false hs sC h ha
      subst hsC
      cases eng <;> simp [runWorker, outcomesOf, isOutcomeEvt, ha]
    · cases sC
      · exact absurd (monoFlags_any_imp true hs false h ha) (by simp)
      · cases eng <;> simp [runWorker, outcomesOf, isOutcomeEvt, ha]
  · have ha' : hs.any (fun b => b) = false := Bool.eq_false_iff.mpr ha
    cases s0
    · cases sC <;> cases eng <;>
        simp [runWorker, outcomesOf, isOutcomeEvt, ha']
    · cases sC
      · exact absurd (monoSeqB_head_true hs false h) (by simp)
      · cases eng <;> simp [runWorker, outcomesOf, isOutcomeEvt, ha']

theorem run_worker_outcomes_amended_witness :
    (outcomesOf (runWorker false [] EngineResult.success false)).length ≤ 1 :=
  (run_worker_outcomes_amended false [] EngineResult.success false
    (by decide)).1

/-- C2 counterexample: in a plain successful run (flag never set), the
worker emits the `Done` outcome notification and only afterwards — in the
`finally` block — invokes `cleanup_partial_files`; so it is false that
cleanup is completed or attempted before the outcome notification. -/
theorem run_worker_emit_before_cleanup_cex :
    cleanupBeforeOutcome (runWorker false [] EngineResult.success false)
      = false := by
  decide

/-- C2 amended: for every run, regardless of flag history and engine
behaviour, `cleanup_partial_files` is invoked exactly once by the worker's
terminal handling and is never skipped — but it is the run's final action,
coming after the outcome notification (when one is emitted), not before it. -/
theorem run_worker_cleanup_once_final (s0 : Bool) (hs : List Bool)
    (eng : EngineResult) (sC : Bool) :
    (runWorker s0 hs eng sC).countP isCleanupEvt = 1 ∧
    (runWorker s0 hs eng sC).getLast? = some WEvent.cleanupEvt := by
  have hcases : hs.any (fun b => b) = true ∨ hs.any (fun b => b) = false := by
    cases hs.any (fun b => b) <;> simp
  cases s0 <;> cases sC <;> cases eng <;> rcases hcases with ha | ha <;>
    simp [runWorker, ha, List.countP_cons, isCleanupEvt]

/-- C3: the percentage reported by the progress hook is always within
`[0, 100]`; it is exactly `0` when `total = 0` (no division happens), and
for `total > 0` it equals the specification's
`clamp(downloaded / total * 100, 0, 100)`. -/
theorem hook_percentage_bounds (d t : ℚ) :
    (0 ≤ hookPct d t ∧ hookPct d t ≤ 100) ∧
    hookPct d 0 = 0 ∧
    (0 < t → hookPct d t = clampSpec 0 100 (d / t * 100)) := by
  refine ⟨⟨le_max_left 0 _, max_le (by norm_num) (min_le_left _ _)⟩, ?_, ?_⟩
  · norm_num [hookPct]
  · intro ht
    simp [hookPct, clampSpec, ht.ne']

theorem hook_percentage_bounds_witness :
    hookPct 30 60 = clampSpec 0 100 (30 / 60 * 100) :=
  (hook_percentage_bounds 30 60).2.2 (by norm_num)

/-- C4 counterexample: user starts a download, cancels it while the worker
does not terminate within the bounded `wait(500)` (the cancel handler then
re-enables the download button anyway), types a new link, and clicks
download again — `start_download` runs its gates, finds nothing amiss, and
spawns a second worker thread while the first is still active: two worker
threads are active at once, refuting the single-flight invariant. -/
theorem single_flight_violation_cex :
    (runEvents [CtrlEvent.setInput "u".toList,
      CtrlEvent.clickDownload true true,
      CtrlEvent.clickCancel true false,
      CtrlEvent.setInput "v".toList,
      CtrlEvent.clickDownload true true]).activeWorkers = 2 := by
  decide

theorem singleFlight_step (s : CtrlState) (e : CtrlEvent)
    (hs : singleFlightInv s) (he : benignEvent e = true) :
    singleFlightInv (ctrlStep s e) := by
  obtain ⟨h1, h2⟩ := hs
  cases e with
  | clickDownload f i =>
    show singleFlightInv
      (if s.btnDownloadEnabled = true then (start_download s f i).1 else s)
    by_cases hb : s.btnDownloadEnabled = true
    · have hw : s.activeWorkers = 0 := h2 hb
      rw [if_pos hb]
      unfold start_download
      split_ifs <;> simp_all [singleFlightInv]
    · rw [if_neg hb]; exact ⟨h1, h2⟩
  | clickCancel r w =>
    simp only [benignEvent, Bool.and_eq_true] at he
    obtain ⟨hr, hw⟩ := he
    subst hr; subst hw
    show singleFlightInv
      (if s.btnCancelEnabled = true then cancel_download s true true else s)
    by_cases hb : s.btnCancelEnabled = true
    · rw [if_pos hb]
      unfold cancel_download
      simp only [Bool.and_self, if_pos rfl]
      refine ⟨?_, fun _ => ?_⟩ <;> simp <;> omega
    · rw [if_neg hb]; exact ⟨h1, h2⟩
  | setInput t => exact ⟨h1, h2⟩
  | workerExit =>
    refine ⟨?_, fun hb => ?_⟩
    · exact le_trans (Nat.sub_le _ _) h1
    · have := h2 hb
      simp [ctrlStep, this]
  | onFinishedSig m => simp [benignEvent] at he
  | onErrorSig m => simp [benignEvent] at he

theorem singleFlight_fold : ∀ (es : List CtrlEvent) (s : CtrlState),
    singleFlightInv s → (∀ e ∈ es, benignEvent e = true) →
    singleFlightInv (es.foldl ctrlStep s)
  | [], _ => fun h _ => h
  | e :: es, s => fun h hall => by
    rw [List.foldl_cons]
    exact singleFlight_fold es _
      (singleFlight_step s e h (hall e (List.mem_cons_self _ _)))
      (fun x hx => hall x (List.mem_cons_of_mem _ hx))

/-- C4 amended: the controller enforces single-flight only through button
enablement — a worker is spawned only while the download button is enabled,
and spawning disables it.  On traces of input edits, start clicks, worker
exits, and cancel clicks that observe the running worker and see it
terminate within the bounded wait, at most one worker thread is ever
active.  Without those provisos the invariant fails: `cancel_download`
re-enables the download button after its 500 ms `wait` even when the worker
has not exited (see the counterexample), and the terminal signal handlers
likewise re-enable it while the emitting worker may still be running its
cleanup tail. -/
theorem single_flight_amended (es : List CtrlEvent)
    (h : ∀ e ∈ es, benignEvent e = true) :
    (runEvents es).activeWorkers ≤ 1 :=
  (singleFlight_fold es initState ⟨by decide, fun _ => rfl⟩ h).1

theorem single_flight_amended_witness :
    (runEvents [CtrlEvent.setInput "a".toList,
      CtrlEvent.clickDownload true true]).activeWorkers ≤ 1 :=
  single_flight_amended _ (by decide)

/-- C5: `start_download` checks its gates in source order — transcoder
binary (`check_ffmpeg`), then network probe (`check_internet`), then the
whitespace-stripped source being non-empty — and each failing gate returns
with only a user-visible message (a modal dialog for the first two, the
status label for the third) before `safe_mkdir` is attempted and before any
worker is constructed, so the target directory is untouched; when all gates
pass, the best-effort `safe_mkdir` runs and then a worker is spawned with
the stripped URL. -/
theorem start_download_gate_order (s : CtrlState) (f i : Bool) :
    (f = false →
      start_download s f i = (s, [StartAction.showDialog "FFmpeg Missing"])) ∧
    (f = true → i = false →
      start_download s f i =
        ({ s with lblStatus := "Offline" },
         [StartAction.showDialog "No Internet"])) ∧
    (f = true → i = true → stripChars s.inputText = [] →
      start_download s f i =
        ({ s with lblStatus := "Please paste a YouTube link." }, [])) ∧
    (f = true → i = true → stripChars s.inputText ≠ [] →
      (start_download s f i).2 =
        [StartAction.mkdirTarget,
         StartAction.spawnWorker (stripChars s.inputText)] ∧
      (start_download s f i).1.activeWorkers = s.activeWorkers + 1 ∧
      (start_download s f i).1.btnDownloadEnabled = false) := by
  refine ⟨?_, ?_, ?_, ?_⟩
  · intro hf
    simp [start_download, hf]
  · intro hf hi
    simp [start_download, hf, hi]
  · intro hf hi hu
    simp [start_download, hf, hi, hu]
  · intro hf hi hu
    simp [start_download, hf, hi, hu]

theorem start_download_gate_order_witness :
    start_download initState false true =
      (initState, [StartAction.showDialog "FFmpeg Missing"]) :=
  (start_download_gate_order initState false true).1 rfl

/-- C9 counterexample: invoking `cancel_download` in the freshly initialized
window, where no job is running, is not a no-op — among other changes it
rewrites the status label from "Ready" to "Cancelled". -/
theorem cancel_download_not_noop_cex :
    cancel_download initState false false ≠ initState := by
  decide

/-- C9 amended: when no job is running, `cancel_download` touches no worker
(`activeWorkers` is unchanged and the whole stop/cleanup branch is skipped)
but is not a display no-op: it unconditionally sets the status label to
"Cancelled", resets the progress bar to 0, clears the input line, re-enables
the download button and disables the cancel button (and schedules the timed
UI reset). -/
theorem cancel_download_no_job_amended (s : CtrlState) (w : Bool) :
    cancel_download s false w =
      { s with lblStatus := "Cancelled", progressVal := 0, inputText := [],
               btnDownloadEnabled := true, btnCancelEnabled := false } ∧
    (cancel_download s false w).activeWorkers = s.activeWorkers := by
  constructor <;> rfl
